import Mathlib

/-!
Shallow embedding of the core trading engine of the `midas` repository
(crate `dionysus`): the crossover detector, the counselor/oracle decision
pipeline, the stateful trading agent `Chrysus`, the indicator wrappers and
the backtest replay loop.  Rust `f64` arithmetic is modelled by exact
rational arithmetic (`ℚ`); Rust `HashMap<usize, _>` is modelled as an
association list with insert-replacing semantics; Rust panics are modelled
by `Option` (`none` = panic); fallible operations return `Except`.
The external `ta` crate (numeric indicator formulas) is out of the
repository and is abstracted as a state machine parameter.
-/

namespace Midas

/-- Source `finance.rs DiError`: the error taxonomy. -/
inductive DiError
  | NotFound
  | NotImplemented
  | Message (s : String)
  | Error
  | OutOfBounds
  | NoneE
deriving DecidableEq

/-- Source `finance.rs Token`: instrument identifier. -/
inductive Token
  | Symbol (s : String)
  | Currency (s : String)
  | Pair (p : String × String)
  | NoneT
deriving DecidableEq

/-- Source `time.rs TimeUnit`. -/
inductive TimeUnit
  | Sec (n : Nat)
  | Min (n : Nat)
  | Hour (n : Nat)
  | Day (n : Nat)
  | Week (n : Nat)
  | Month (n : Nat)
  | Year (n : Nat)
  | Unit (n : Nat)
deriving DecidableEq

/-- Rust `TimeUnit::default()` is `Hour(1)`. -/
def TimeUnit.default : TimeUnit := TimeUnit.Hour 1

/-- Source `time.rs TimeWindow`: resolution plus a signed sample count. -/
structure TimeWindow where
  resolution : TimeUnit
  count : Int
deriving DecidableEq

/-- Rust `Date` (a UTC timestamp) modelled as an integer timestamp. -/
abbrev Date := Int

/-- Source `time.rs Date::from_timestamp` (u64 timestamp). -/
def Date.fromTimestamp (t : Nat) : Date := (t : Int)

/-- Rust `x as usize` on an `i64`, wrapping modulo 2^64 as the cast does. -/
def i64AsUsize (x : Int) : Nat := (x % (2 : Int) ^ 64).toNat

/-- Source `finance.rs Sample`: one OHLCV candle, prices as exact rationals. -/
structure Sample where
  resolution : TimeUnit
  timestamp : Nat
  open_ : ℚ
  high : ℚ
  low : ℚ
  close : ℚ
  volume : Nat
deriving DecidableEq

/-- Source `finance.rs Quote`. -/
structure Quote where
  token : Token
  bid : Option ℚ
  ask : Option ℚ
  biddate : Date
  askdate : Date
deriving DecidableEq

/-- Source `finance.rs OrderType`. -/
inductive OrderType
  | Market
  | Limit
  | StopMarket
  | StopLimit
deriving DecidableEq

/-- Source `finance.rs Side`. -/
inductive Side
  | Buy
  | Sell
deriving DecidableEq

/-- Source `finance.rs TimeInForce`. -/
inductive TimeInForce
  | GTC
  | IOC
  | FOK
deriving DecidableEq

/-- Source `finance.rs Position`. -/
structure Position where
  token : Token
  quantity : ℚ
  price : ℚ
  date : Date
  attached_order : Option Nat
deriving DecidableEq

/-- Source `finance.rs Order`. -/
structure Order where
  index : Nat
  position_index : Option Nat
  id : Option Int
  token : Token
  date : Date
  side : Side
  quantity : ℚ
  price : ℚ
  stop_price : Option ℚ
  order_type : OrderType
  tif : TimeInForce
deriving DecidableEq

/-- Source `finance.rs BookLine`. -/
structure BookLine where
  price : ℚ
  quantity : ℚ
deriving DecidableEq

/-- Source `finance.rs Book`. -/
structure Book where
  token : Token
  bids : List BookLine
  asks : List BookLine
deriving DecidableEq

/-- Rust `Book::default()`. -/
def Book.default : Book := { token := Token.NoneT, bids := [], asks := [] }

/-- Rust `Iterator::max_by` over book lines comparing prices: the fold keeps
the accumulator only when it compares strictly greater, so on ties the later
element wins (as in Rust). -/
def maxByPrice (lines : List BookLine) : Option BookLine :=
  lines.foldl
    (fun acc l =>
      match acc with
      | none => some l
      | some m => if compare m.price l.price = Ordering.gt then some m else some l)
    none

/-- Rust `Iterator::min_by` over book lines comparing prices: the fold keeps
the earlier element on ties (as in Rust). -/
def minByPrice (lines : List BookLine) : Option BookLine :=
  lines.foldl
    (fun acc l =>
      match acc with
      | none => some l
      | some m => if compare m.price l.price = Ordering.gt then some l else some m)
    none

/-- Source `finance.rs Book::quote`.  Note that the source computes both the
bid and the ask from `self.bids`; the `asks` field is only tested for
emptiness.  The embedding reproduces this faithfully. -/
def Book.quote (b : Book) (now : Date) : Option Quote :=
  if b.bids.isEmpty || b.asks.isEmpty then
    none
  else
    some
      { token := b.token
        bid := (maxByPrice b.bids).map BookLine.price
        ask := (minByPrice b.bids).map BookLine.price
        biddate := now
        askdate := now }

/-- Source `counselor.rs Crossover` (constructor names as in the source). -/
inductive Crossover
  | Equal
  | Bellow
  | Over
  | CrossingUpwards
  | CrossingDownwards
deriving DecidableEq

/-- Source `counselor.rs Crossover::from(curr, prev)`: the transition table
combining the current pointwise ordering with the previous one. -/
def Crossover.fromOrd (curr prev : Ordering) : Crossover :=
  match prev with
  | Ordering.gt =>
    match curr with
    | Ordering.gt => Crossover.Over
    | _ => Crossover.CrossingDownwards
  | Ordering.eq =>
    match curr with
    | Ordering.gt => Crossover.CrossingUpwards
    | Ordering.eq => Crossover.Equal
    | Ordering.lt => Crossover.CrossingDownwards
  | Ordering.lt =>
    match curr with
    | Ordering.lt => Crossover.Bellow
    | _ => Crossover.CrossingUpwards

/-- Source `counselor.rs Crossover::signal`. -/
def Crossover.signal : Crossover → Int
  | Crossover.Bellow => -1
  | Crossover.Over => 1
  | Crossover.Equal => 0
  | Crossover.CrossingUpwards => 2
  | Crossover.CrossingDownwards => -2

/-- Tail of `cross_from_ord`: each element is classified against the
previous ordering via `Crossover.fromOrd`. -/
def crossFromOrdAux : Ordering → List Ordering → List Crossover
  | _, [] => []
  | prev, o :: rest => Crossover.fromOrd o prev :: crossFromOrdAux o rest

/-- Source `counselor.rs cross_from_ord`: index 0 is `Over` when its
ordering is `Greater` and `Bellow` otherwise; index `i > 0` combines
`ord[i]` with `ord[i-1]` through the transition table. -/
def cross_from_ord : List Ordering → List Crossover
  | [] => []
  | o :: rest =>
    (if o = Ordering.gt then Crossover.Over else Crossover.Bellow) ::
      crossFromOrdAux o rest

/-- Source `counselor.rs compute_crossover_s`: pointwise orderings of the
two series, then classification. -/
def compute_crossover_s {α : Type} (a b : List α) (f : α → α → Ordering) :
    List Crossover :=
  cross_from_ord (List.zipWith f a b)

/-- Source `counselor.rs compute_zero_cross_s`. -/
def compute_zero_cross_s (curve : List ℚ) : List Crossover :=
  cross_from_ord (curve.map fun c => compare c 0)

/-- Source `counselor.rs Signal`. -/
inductive Signal
  | Buy
  | Sell
  | NoneS
deriving DecidableEq

/-- Source `counselor.rs Advice` with `Default` values. -/
structure Advice where
  signal : Signal := Signal.NoneS
  order_type : OrderType := OrderType.Market
  stop_price : ℚ := 0
  stop_loss : ℚ := 0
  take_profit : ℚ := 0
  tif : TimeInForce := TimeInForce.GTC
deriving DecidableEq

/-- Rust `Advice::default()`. -/
def Advice.default : Advice := {}

/-- Source `counselor.rs Counselor`: the tagged advisory-rule variants. -/
inductive Counselor
  | Trace
  | MeanReversion (n : Nat)
  | MACDCrossover (p : Nat × Nat × Nat)
  | MACDZeroCross (p : Nat × Nat × Nat)
  | EMACross (p : Nat × Nat)
deriving DecidableEq

/-- Source `counselor.rs Counselor::required_samples`. -/
def Counselor.required_samples : Counselor → Nat
  | Counselor.Trace => 0
  | Counselor.MeanReversion n => n
  | Counselor.MACDCrossover (_, sp, _) => sp
  | Counselor.MACDZeroCross (_, sp, _) => sp
  | Counselor.EMACross (_, sp) => sp

/-- The type of `Counselor::run`: the counselor bodies evaluate external
`ta`-crate indicators over `f64`, so the run function is kept as an
explicit parameter of the oracle/agent/backtest embedding. -/
def RunCounselor : Type :=
  Counselor → Quote → List Sample → Except DiError Advice

/-- Source `strategy.rs Decision` with `Default` values. -/
structure Decision where
  advice : Advice := Advice.default
  pct : ℚ := 0
deriving DecidableEq

/-- Rust `Decision::default()`. -/
def Decision.default : Decision := {}

/-- Source `strategy.rs Oracle`. -/
inductive Oracle
  | Delphi
  | Dodona
deriving DecidableEq

/-- The `for counselor in counselors` loop inside `Oracle::see` for the
Delphi policy: the first counselor whose run succeeds with a Buy or Sell
signal produces the decision (`pct` 0.6 for Buy, 1.0 for Sell); errors and
None signals are skipped; `none` means the loop fell through. -/
def delphiLoop (runC : RunCounselor) (quote : Quote) (history : List Sample) :
    List Counselor → Option Decision
  | [] => none
  | c :: rest =>
    match runC c quote history with
    | Except.ok advice =>
      match advice.signal with
      | Signal.Buy => some { advice := advice, pct := 6 / 10 }
      | Signal.Sell => some { advice := advice, pct := 1 }
      | Signal.NoneS => delphiLoop runC quote history rest
    | Except.error _ => delphiLoop runC quote history rest

/-- Source `strategy.rs Oracle::see`: Delphi runs the first-match loop and
falls back to `Decision::default()`; Dodona always returns the default. -/
def Oracle.see (o : Oracle) (runC : RunCounselor) (quote : Quote)
    (history : List Sample) (counselors : List Counselor) :
    Except DiError Decision :=
  match o with
  | Oracle.Delphi =>
    match delphiLoop runC quote history counselors with
    | some d => Except.ok d
    | none => Except.ok Decision.default
  | Oracle.Dodona => Except.ok Decision.default

/-- Source `strategy.rs Strategy`. -/
structure Strategy where
  oracle : Oracle
  counselors : List Counselor
  duration : TimeWindow
deriving DecidableEq

/-- Rust `Strategy::default()`. -/
def Strategy.default : Strategy :=
  { oracle := Oracle.Delphi
    counselors := []
    duration := { resolution := TimeUnit.default, count := 0 } }

/-- Source `strategy.rs Strategy::required_history_size`: maximum of the
counselors' required sample counts, starting from 0. -/
def Strategy.required_history_size (s : Strategy) : Nat :=
  s.counselors.foldl
    (fun ans c => if c.required_samples > ans then c.required_samples else ans)
    0

/-- Source `strategy.rs Strategy::run`. -/
def Strategy.run (s : Strategy) (runC : RunCounselor) (quote : Quote)
    (history : List Sample) : Except DiError Decision :=
  s.oracle.see runC quote history s.counselors

/-- Rust `HashMap::insert` on a `HashMap<usize, α>` modelled as an
association list: replace the value when the key is present, append
otherwise. -/
def mapInsert {α : Type} : List (Nat × α) → Nat → α → List (Nat × α)
  | [], k, v => [(k, v)]
  | (k', v') :: rest, k, v =>
    if k' = k then (k, v) :: rest else (k', v') :: mapInsert rest k v

/-- Rust `HashMap::remove` modelled on an association list. -/
def mapRemove {α : Type} : List (Nat × α) → Nat → List (Nat × α)
  | [], _ => []
  | (k', v') :: rest, k =>
    if k' = k then rest else (k', v') :: mapRemove rest k

/-- Source `strategy.rs Chrysus`: the per-instrument trading agent state. -/
structure Chrysus where
  active : Bool
  token : Token
  strategy : Strategy
  capital : ℚ
  locked_capital : ℚ
  positions : List (Nat × Position)
  balance : ℚ
  book : Book
  orders : List (Nat × Order)
  next_position_index : Nat
  next_order_index : Nat
deriving DecidableEq

/-- Source `strategy.rs Chrysus::new`. -/
def Chrysus.new (token : Token) : Chrysus :=
  { active := false
    token := token
    strategy := Strategy.default
    capital := 0
    locked_capital := 0
    positions := []
    balance := 0
    book := Book.default
    orders := []
    next_position_index := 0
    next_order_index := 0 }

/-- The `for (position_index, position) in &mut self.positions` loop of the
Sell branch of `Chrysus::compute_orders`: every position with no attached
order whose entry price is strictly below `advice.stop_price` receives one
closing order and is marked attached; returns the updated positions, the
emitted orders in iteration order, and the next order index. -/
def sellOrdersLoop (quote : Quote) (d : Decision) (now : Date) :
    List (Nat × Position) → Nat → List (Nat × Position) × List Order × Nat
  | [], idx => ([], [], idx)
  | (k, p) :: rest, idx =>
    if p.attached_order = none ∧ d.advice.stop_price > p.price then
      let o : Order :=
        { index := idx
          position_index := some k
          id := none
          token := quote.token
          date := now
          side := Side.Sell
          quantity := p.quantity
          price := d.advice.stop_price
          stop_price := some d.advice.stop_price
          order_type := d.advice.order_type
          tif := d.advice.tif }
      let r := sellOrdersLoop quote d now rest (idx + 1)
      ((k, { p with attached_order := some idx }) :: r.1, o :: r.2.1, r.2.2)
    else
      let r := sellOrdersLoop quote d now rest idx
      ((k, p) :: r.1, r.2.1, r.2.2)

/-- Source `strategy.rs Chrysus::compute_orders` (with `Date::now()` passed
in): Buy sizes one order from `pct * capital / stop_price` and moves the
allocation into locked capital; Sell emits one closing order per eligible
position; None emits nothing. -/
def Chrysus.compute_orders (s : Chrysus) (quote : Quote) (d : Decision)
    (now : Date) : List Order × Chrysus :=
  match d.advice.signal with
  | Signal.Buy =>
    let available_capital := d.pct * s.capital
    let shares := available_capital / d.advice.stop_price
    if shares > 0 then
      let o : Order :=
        { index := s.next_order_index
          position_index := none
          id := none
          token := quote.token
          date := now
          quantity := shares
          side := Side.Buy
          price := d.advice.stop_price
          stop_price := some d.advice.stop_price
          order_type := d.advice.order_type
          tif := d.advice.tif }
      ([o],
        { s with
          locked_capital := s.locked_capital + available_capital
          capital := s.capital - available_capital
          orders := mapInsert s.orders s.next_order_index o
          next_order_index := s.next_order_index + 1 })
    else ([], s)
  | Signal.Sell =>
    let r := sellOrdersLoop quote d now s.positions s.next_order_index
    (r.2.1,
      { s with
        positions := r.1
        orders := r.2.1.foldl (fun m o => mapInsert m o.index o) s.orders
        next_order_index := r.2.2 })
  | Signal.NoneS => ([], s)

/-- Source `strategy.rs Chrysus::realize`: a Sell fill removes the
referenced position, decreases the running balance and credits free
capital; a Buy fill inserts a position at `next_position_index` (which the
source never increments), increases the running balance and debits locked
capital. -/
def Chrysus.realize (s : Chrysus) (o : Order) : Chrysus :=
  match o.side with
  | Side.Sell =>
    { s with
      positions :=
        match o.position_index with
        | some k => mapRemove s.positions k
        | none => s.positions
      balance := s.balance - o.quantity
      capital := s.capital + o.quantity * o.price }
  | Side.Buy =>
    { s with
      positions :=
        mapInsert s.positions s.next_position_index
          { price := o.price
            token := o.token
            quantity := o.quantity
            date := o.date
            attached_order := none }
      balance := s.balance + o.quantity
      locked_capital := s.locked_capital - o.quantity * o.price }

/-- The type of `HistoricalData::get_last` as used by `Chrysus::decide`. -/
def GetLast : Type := Token → TimeWindow → Except DiError (List Sample)

/-- Source `strategy.rs Chrysus::decide` (with `Date::now()` passed in):
stores the book, derives a quote (skipping when a side is empty), fetches
the lookback window (skipping on failure), runs the strategy and converts
the decision into orders; every failure yields no orders. -/
def Chrysus.decide (runC : RunCounselor) (s : Chrysus) (book : Book)
    (getLast : GetLast) (now : Date) : List Order × Chrysus :=
  let s := { s with book := book }
  match s.book.quote now with
  | some quote =>
    match getLast s.token s.strategy.duration with
    | Except.ok samples =>
      match s.strategy.run runC quote samples with
      | Except.ok decision => s.compute_orders quote decision now
      | Except.error _ => ([], s)
    | Except.error _ => ([], s)
  | none => ([], s)

/-- Source `backtest.rs Backtest`: the backtest result record. -/
structure Backtest where
  initial_capital : ℚ
  orders : List Order
  period : TimeWindow
  currency_balance : ℚ
  symbol_balance : ℚ
deriving DecidableEq

/-- Source `backtest.rs BacktestData::get_last` for sample index `i`: the
slice `samples[i.saturating_sub(count as usize) .. i]` (natural-number
subtraction saturates exactly as `saturating_sub` does).  The replay loop
only calls this with `i < samples.len()`, where the Rust range indexing is
in bounds; the drop/take model coincides with the source there. -/
def BacktestData.get_last (samples : List Sample) (sample_index : Nat) :
    GetLast := fun _ duration =>
  let first_index := sample_index - i64AsUsize duration.count
  Except.ok ((samples.drop first_index).take (sample_index - first_index))

/-- Source `backtest.rs backtest`, lines 57-59: the replayed agent is a
clone of the input agent with only `capital` set to the fixed starting
capital 1000; every other field (including the ledger) is the clone's. -/
def backtestInitialAgent (chrysus : Chrysus) : Chrysus :=
  { chrysus with capital := 1000 }

/-- One iteration of the `for i in offset..history.len()` replay loop of
`backtest`: build a one-level book at the sample's close, call `decide`
with the strictly-past history slice, stamp each returned order's date from
the sample and `realize` it immediately, accumulating the orders. -/
def backtestStep (runC : RunCounselor) (tok : Token) (history : List Sample)
    (now : Date) (acc : Chrysus × List Order) (is : Nat × Sample) :
    Chrysus × List Order :=
  let i := is.1
  let sample := is.2
  let book : Book :=
    { token := tok
      bids := [{ price := sample.close, quantity := 1 }]
      asks := [{ price := sample.close, quantity := 1 }] }
  let r := Chrysus.decide runC acc.1 book (BacktestData.get_last history i) now
  r.1.foldl
    (fun st o =>
      let o' := { o with date := Date.fromTimestamp sample.timestamp }
      (st.1.realize o', st.2 ++ [o']))
    (r.2, acc.2)

/-- Source `backtest.rs backtest` (with `Date::now()` passed in): clones
the agent with starting capital 1000, records the period from `history[0]`
(a panic — `none` — on an empty history), replays the samples from the
strategy's required lookback offset onward, and reports the final free
capital and running balance. -/
def backtest (runC : RunCounselor) (chrysus : Chrysus)
    (history : List Sample) (now : Date) : Option Backtest :=
  match history with
  | [] => none
  | h0 :: _ =>
    let c := backtestInitialAgent chrysus
    let offset := chrysus.strategy.required_history_size
    let r :=
      (history.enum.drop offset).foldl
        (backtestStep runC chrysus.token history now) (c, [])
    some
      { initial_capital := 1000
        orders := r.2
        period := { resolution := h0.resolution, count := (history.length : Int) }
        currency_balance := r.1.capital
        symbol_balance := r.1.balance }

/-- Source `indicators.rs IndicatorData`. -/
inductive IndicatorData
  | Scalar (v : ℚ)
  | Vector (v : List ℚ)
  | Matrix (v : List (List ℚ))
deriving DecidableEq

/-- Abstraction of one single-output `ta`-crate indicator (EMA, SMA, sdev,
RSI): `new` may fail for an invalid period (the crate returns `Err`, e.g.
for period 0) and `next` consumes one sample producing one value.  The
`ta` crate is external to the repository, so its numeric recurrences stay
abstract. -/
structure TaIndicator (σ : Type) where
  new : Nat → Option σ
  next : σ → Sample → σ × ℚ

/-- The `for sample in samples` accumulation used by the series wrappers:
one output value per consumed sample. -/
def taRun {σ : Type} (ta : TaIndicator σ) (f : σ) (samples : List Sample) :
    σ × List ℚ :=
  samples.foldl
    (fun acc sample =>
      let r := ta.next acc.1 sample
      (r.1, acc.2 ++ [r.2]))
    (f, [])

/-- Source `indicators.rs indicator_series_fn` (the macro body behind
`exponential_moving_average_s` etc.): when the indicator constructor fails
the vector stays empty; otherwise one value is pushed per sample; the
result is always `Ok`. -/
def indicator_series_fn {σ : Type} (ta : TaIndicator σ) (n : Nat)
    (samples : List Sample) : Except DiError IndicatorData :=
  match ta.new n with
  | some f => Except.ok (IndicatorData.Vector (taRun ta f samples).2)
  | none => Except.ok (IndicatorData.Vector [])

/-- Source `indicators.rs indicator_fn` (the macro body behind
`exponential_moving_average` etc.): slices `samples[samples.len() - n..]`,
which panics (`none`) when the window is shorter than `n`. -/
def indicator_fn {σ : Type} (ta : TaIndicator σ) (n : Nat)
    (samples : List Sample) : Option (Except DiError IndicatorData) :=
  if n ≤ samples.length then
    match ta.new n with
    | some f =>
      some (Except.ok (IndicatorData.Scalar
        (((taRun ta f (samples.drop (samples.length - n))).2).getLastD 0)))
    | none => some (Except.ok (IndicatorData.Scalar 0))
  else none

/-- Abstraction of the `ta` crate's MACD indicator: `new` fails for invalid
periods; `next` yields the (macd, signal) pair per sample. -/
structure TaMacd (σ : Type) where
  new : Nat → Nat → Nat → Option σ
  next : σ → Sample → σ × (ℚ × ℚ)

/-- The per-sample accumulation of `macd_s`. -/
def taMacdRun {σ : Type} (ta : TaMacd σ) (f : σ) (samples : List Sample) :
    σ × (List ℚ × List ℚ) :=
  samples.foldl
    (fun acc sample =>
      let r := ta.next acc.1 sample
      (r.1, (acc.2.1 ++ [r.2.1], acc.2.2 ++ [r.2.2])))
    (f, ([], []))

/-- Source `indicators.rs macd_s`: `MACD::new(..).unwrap()` panics
(`none`) when the constructor fails; otherwise a two-row matrix is built
with one (macd, signal) pair per sample. -/
def macd_s {σ : Type} (ta : TaMacd σ) (fast_period slow_period signal_period : Nat)
    (samples : List Sample) : Option (Except DiError IndicatorData) :=
  match ta.new fast_period slow_period signal_period with
  | none => none
  | some m =>
    let r := taMacdRun ta m samples
    some (Except.ok (IndicatorData.Matrix [r.2.1, r.2.2]))

/-- Source `indicators.rs macd` (the `Indicator::compute` path for MACD):
the slice `samples[samples.len() - slow_period..]` panics (`none`) when
the window is shorter than `slow_period`; then the last value of each row
is taken with `.last().unwrap()`, which panics when the rows are empty. -/
def macd {σ : Type} (ta : TaMacd σ) (fast_period slow_period signal_period : Nat)
    (samples : List Sample) : Option (Except DiError IndicatorData) :=
  if slow_period ≤ samples.length then
    match macd_s ta fast_period slow_period signal_period
        (samples.drop (samples.length - slow_period)) with
    | some (Except.ok (IndicatorData.Matrix r)) =>
      match (r.getD 0 []).getLast?, (r.getD 1 []).getLast? with
      | some a, some b =>
        some (Except.ok (IndicatorData.Matrix [[a], [b]]))
      | _, _ => none
    | some (Except.ok _) => some (Except.error DiError.Error)
    | some (Except.error e) => some (Except.error e)
    | none => none
  else none

/-- Abstraction of the `ta` crate's Bollinger-Bands indicator: `next`
yields the (lower, average, upper) triple per sample. -/
structure TaBollinger (σ : Type) where
  new : Nat → ℚ → Option σ
  next : σ → Sample → σ × (ℚ × ℚ × ℚ)

/-- The per-sample accumulation of `bollinger_bands_s`. -/
def taBollingerRun {σ : Type} (ta : TaBollinger σ) (f : σ)
    (samples : List Sample) : σ × (List ℚ × List ℚ × List ℚ) :=
  samples.foldl
    (fun acc sample =>
      let r := ta.next acc.1 sample
      (r.1,
        (acc.2.1 ++ [r.2.1], acc.2.2.1 ++ [r.2.2.1], acc.2.2.2 ++ [r.2.2.2])))
    (f, ([], [], []))

/-- Source `indicators.rs bollinger_bands_s`: `BollingerBands::new(n, w)
.unwrap()` panics (`none`) when the constructor fails; otherwise a
three-row matrix with one (lower, average, upper) triple per sample. -/
def bollinger_bands_s {σ : Type} (ta : TaBollinger σ) (n : Nat) (w : ℚ)
    (samples : List Sample) : Option (Except DiError IndicatorData) :=
  match ta.new n w with
  | none => none
  | some bb =>
    let r := taBollingerRun ta bb samples
    some (Except.ok (IndicatorData.Matrix [r.2.1, r.2.2.1, r.2.2.2]))

/-- Source `indicators.rs bollinger_bands` (the `Indicator::compute` path
for Bollinger Bands): the window is truncated with `saturating_sub`, and
the last value of each row is taken with `.last().unwrap()`, which panics
(`none`) when the rows are empty. -/
def bollinger_bands {σ : Type} (ta : TaBollinger σ) (n : Nat) (w : ℚ)
    (samples : List Sample) : Option (Except DiError IndicatorData) :=
  match bollinger_bands_s ta n w (samples.drop (samples.length - n)) with
  | some (Except.ok (IndicatorData.Matrix r)) =>
    match (r.getD 0 []).getLast?, (r.getD 1 []).getLast?,
        (r.getD 2 []).getLast? with
    | some a, some b, some c =>
      some (Except.ok (IndicatorData.Matrix [[a], [b], [c]]))
    | _, _, _ => none
  | some (Except.ok _) => some (Except.error DiError.Error)
  | some (Except.error e) => some (Except.error e)
  | none => none

/-! ## Theorems -/

/-- The tail classification at index `i` combines `rest[i]` with the
ordering just before it (`prev` for `i = 0`). -/
lemma crossFromOrdAux_get? (rest : List Ordering) :
    ∀ (prev : Ordering) (i : Nat), i < rest.length →
      (crossFromOrdAux prev rest).get? i =
        some (Crossover.fromOrd (rest.getD i Ordering.eq)
          ((prev :: rest).getD i Ordering.eq)) := by
  induction rest with
  | nil => intro prev i h; simp at h
  | cons r rs ih =>
    intro prev i h
    cases i with
    | zero => simp [crossFromOrdAux]
    | succ j =>
      have hj : j < rs.length := by simpa using h
      simpa [crossFromOrdAux] using ih r j hj

/-- The classification at positive index `i` of `cross_from_ord` follows
the transition table applied to `ord[i]` and `ord[i-1]`. -/
lemma cross_from_ord_get?_succ (ord : List Ordering) (i : Nat)
    (h : i + 1 < ord.length) :
    (cross_from_ord ord).get? (i + 1) =
      some (Crossover.fromOrd (ord.getD (i + 1) Ordering.eq)
        (ord.getD i Ordering.eq)) := by
  cases ord with
  | nil => simp at h
  | cons o rest =>
    have hi : i < rest.length := by simpa using h
    simpa [cross_from_ord] using crossFromOrdAux_get? rest o i hi

/-- C3.  Crossover classification: index 0 of the classification sequence
is `Over` (Above) exactly when the pointwise ordering at 0 is `Greater` and
`Bellow` (Below) otherwise; each index `i > 0` is obtained from the
previous and current orderings by the transition table (prev Greater: curr
Greater gives Over, otherwise CrossingDownwards; prev Equal: Greater,
Equal, Less give CrossingUpwards, Equal, CrossingDownwards; prev Less:
curr Less gives Bellow, otherwise CrossingUpwards); and on the concrete
integer series a = [0,1,2,3,4] against b = [4,3,2,1,0] the classification
is [Bellow, Bellow, CrossingUpwards, CrossingUpwards, Over], while the
mirrored comparison gives [Over, Over, CrossingDownwards,
CrossingDownwards, Bellow]. -/
theorem crossover_classification :
    (∀ (o : Ordering) (rest : List Ordering),
      (cross_from_ord (o :: rest)).head? =
        some (if o = Ordering.gt then Crossover.Over else Crossover.Bellow)) ∧
    (∀ (ord : List Ordering) (i : Nat), i + 1 < ord.length →
      (cross_from_ord ord).get? (i + 1) =
        some (Crossover.fromOrd (ord.getD (i + 1) Ordering.eq)
          (ord.getD i Ordering.eq))) ∧
    (∀ curr : Ordering, Crossover.fromOrd curr Ordering.gt =
      if curr = Ordering.gt then Crossover.Over
      else Crossover.CrossingDownwards) ∧
    (Crossover.fromOrd Ordering.gt Ordering.eq = Crossover.CrossingUpwards ∧
      Crossover.fromOrd Ordering.eq Ordering.eq = Crossover.Equal ∧
      Crossover.fromOrd Ordering.lt Ordering.eq =
        Crossover.CrossingDownwards) ∧
    (∀ curr : Ordering, Crossover.fromOrd curr Ordering.lt =
      if curr = Ordering.lt then Crossover.Bellow
      else Crossover.CrossingUpwards) ∧
    compute_crossover_s ([0, 1, 2, 3, 4] : List Int) [4, 3, 2, 1, 0] compare =
      [Crossover.Bellow, Crossover.Bellow, Crossover.CrossingUpwards,
        Crossover.CrossingUpwards, Crossover.Over] ∧
    compute_crossover_s ([4, 3, 2, 1, 0] : List Int) [0, 1, 2, 3, 4] compare =
      [Crossover.Over, Crossover.Over, Crossover.CrossingDownwards,
        Crossover.CrossingDownwards, Crossover.Bellow] := by
  refine ⟨?_, cross_from_ord_get?_succ, ?_, ⟨rfl, rfl, rfl⟩, ?_, ?_, ?_⟩
  · intro o rest; cases o <;> simp [cross_from_ord]
  · intro curr; cases curr <;> rfl
  · intro curr; cases curr <;> rfl
  · decide
  · decide

/-- C1.  Capital conservation round trip: an agent with free capital `C`,
zero locked capital and no positions, given a Buy decision with allocation
fraction `p > 0` and stop price `s > 0`, emits exactly one Buy order of
quantity `p * C / s` at price `s`, moving `p * C` from free to locked
capital; realizing that Buy and then a Sell for the created position with
the same quantity and price restores free capital to exactly `C` (in the
exact-rational model of the `f64` arithmetic) with zero locked capital,
zero running balance and an empty position set. -/
theorem capital_conservation_round_trip (tok : Token) (quote : Quote)
    (now : Date) (C p s : ℚ) (hC : 0 < C) (hp : 0 < p) (hs : 0 < s) :
    let a0 : Chrysus := { Chrysus.new tok with capital := C }
    let d : Decision :=
      { advice := { signal := Signal.Buy, stop_price := s }, pct := p }
    let r := a0.compute_orders quote d now
    ∃ o : Order,
      r.1 = [o] ∧ o.side = Side.Buy ∧ o.quantity = p * C / s ∧ o.price = s ∧
      r.2.capital = C - p * C ∧ r.2.locked_capital = p * C ∧
      (let a2 := (r.2.realize o).realize
        { o with side := Side.Sell, position_index := some 0 }
       a2.capital = C ∧ a2.locked_capital = 0 ∧ a2.balance = 0 ∧
         a2.positions = []) := by
  intro a0 d r
  have hshares : (0 : ℚ) < p * C / s := div_pos (mul_pos hp hC) hs
  have hmul : p * C / s * s = p * C := div_mul_cancel₀ _ (ne_of_gt hs)
  refine ⟨{ index := 0, position_index := none, id := none,
            token := quote.token, date := now, side := Side.Buy,
            quantity := p * C / s, price := s, stop_price := some s,
            order_type := OrderType.Market, tif := TimeInForce.GTC },
          ?_, rfl, rfl, rfl, ?_, ?_, ?_, ?_, ?_, ?_⟩ <;>
    simp [r, a0, d, Chrysus.compute_orders, Chrysus.realize, Chrysus.new,
      mapInsert, mapRemove, hshares, hmul]

/-- Witness for C1 at capital 1000, fraction 1/2, stop price 10. -/
theorem capital_conservation_round_trip_witness :
    (0 : ℚ) < 1000 ∧ (0 : ℚ) < 1 / 2 ∧ (0 : ℚ) < 10 ∧
    (let a0 : Chrysus := { Chrysus.new Token.NoneT with capital := 1000 }
     let d : Decision :=
       { advice := { signal := Signal.Buy, stop_price := 10 }, pct := 1 / 2 }
     let r := a0.compute_orders
       { token := Token.NoneT, bid := none, ask := none,
         biddate := 0, askdate := 0 } d 0
     ∃ o : Order,
       r.1 = [o] ∧ o.side = Side.Buy ∧
       o.quantity = 1 / 2 * 1000 / 10 ∧ o.price = 10 ∧
       r.2.capital = 1000 - 1 / 2 * 1000 ∧
       r.2.locked_capital = 1 / 2 * 1000 ∧
       (let a2 := (r.2.realize o).realize
         { o with side := Side.Sell, position_index := some 0 }
        a2.capital = 1000 ∧ a2.locked_capital = 0 ∧ a2.balance = 0 ∧
          a2.positions = [])) :=
  ⟨by norm_num, by norm_num, by norm_num,
    capital_conservation_round_trip Token.NoneT
      { token := Token.NoneT, bid := none, ask := none,
        biddate := 0, askdate := 0 } 0 1000 (1 / 2) 10
      (by norm_num) (by norm_num) (by norm_num)⟩

/-- C2 evidence.  The position-index counter never advances: realizing two
Buy fills on a fresh agent stores both Positions under index 0 (the second
overwrites the first, whose quantity 1 is lost), and `next_position_index`
is still 0 afterwards — position indices are reused. -/
theorem position_index_never_advances :
    (let buy : ℚ → Order := fun q =>
      { index := 0, position_index := none, id := none, token := Token.NoneT,
        date := 0, side := Side.Buy, quantity := q, price := 1,
        stop_price := none, order_type := OrderType.Market,
        tif := TimeInForce.GTC }
     let a1 := (Chrysus.new Token.NoneT).realize (buy 1)
     let a2 := a1.realize (buy 2)
     a1.positions.map Prod.fst = [0] ∧
       a2.positions.map Prod.fst = [0] ∧
       a2.next_position_index = 0 ∧
       (a2.positions.map fun kp => kp.2.quantity) = [2]) := by
  decide

/-- C8 evidence.  `Book::quote` derives the ask from the bids list: for a
book whose only bid line is 10 and whose only ask line is 20, the quote's
ask is 10 (the minimum over the bids), not 20 (the lowest ask); an empty
bid or ask side yields no quote. -/
theorem quote_ask_computed_from_bids :
    Book.quote
        { token := Token.NoneT,
          bids := [{ price := 10, quantity := 1 }],
          asks := [{ price := 20, quantity := 1 }] } 0 =
      some { token := Token.NoneT, bid := some 10, ask := some 10,
             biddate := 0, askdate := 0 } ∧
    Book.quote
        { token := Token.NoneT, bids := [],
          asks := [{ price := 20, quantity := 1 }] } 0 = none ∧
    Book.quote
        { token := Token.NoneT,
          bids := [{ price := 10, quantity := 1 }], asks := [] } 0 = none := by
  decide

/-- C9 evidence.  `Indicator::compute` for MACD panics on a window shorter
than the slow period: the slice `samples[samples.len() - slow_period..]`
underflows for a one-sample window with slow period 26, whatever the
underlying `ta` indicator does. -/
theorem macd_compute_short_window_panics {σ : Type} (ta : TaMacd σ)
    (sample : Sample) : macd ta 12 26 9 [sample] = none := rfl

/-- C7 counterexample.  An empty history has length 0, which is at most
any strategy's required lookback, yet `backtest` panics on `history[0]`
(modelled as `none`) instead of returning a result with an empty order
list. -/
theorem backtest_empty_history_panics :
    (Chrysus.new Token.NoneT).strategy.required_history_size = 0 ∧
    backtest (fun _ _ _ => Except.error DiError.Error)
      (Chrysus.new Token.NoneT) [] 0 = none := ⟨rfl, rfl⟩

/-- C7 (amended).  Lookback gating: for every strategy and every NON-EMPTY
history whose length is at most the strategy's required lookback,
`backtest` completes and returns a result with an empty order list (the
replay loop's range is empty), reporting the starting capital 1000 and the
inherited running balance unchanged. -/
theorem lookback_gating (runC : RunCounselor) (a : Chrysus)
    (history : List Sample) (now : Date) (hne : history ≠ [])
    (hlen : history.length ≤ a.strategy.required_history_size) :
    ∃ r, backtest runC a history now = some r ∧ r.orders = [] ∧
      r.currency_balance = 1000 ∧ r.symbol_balance = a.balance := by
  match history, hne with
  | h0 :: rest, _ =>
    have hdrop :
        ((h0 :: rest).enum.drop a.strategy.required_history_size) = [] :=
      List.drop_eq_nil_of_le (by
        simpa [List.enum_length] using hlen)
    refine ⟨_, rfl, ?_, ?_, ?_⟩ <;>
      simp [backtest, hdrop, backtestInitialAgent]

/-- Witness for C7 at a MeanReversion(5) strategy and a one-sample
history. -/
theorem lookback_gating_witness :
    (let a : Chrysus :=
      { Chrysus.new Token.NoneT with
        strategy :=
          { oracle := Oracle.Delphi,
            counselors := [Counselor.MeanReversion 5],
            duration := { resolution := TimeUnit.default, count := 0 } } }
     let history : List Sample :=
       [{ resolution := TimeUnit.default, timestamp := 0, open_ := 1,
          high := 1, low := 1, close := 1, volume := 1 }]
     history ≠ [] ∧
       history.length ≤ a.strategy.required_history_size ∧
       ∃ r, backtest (fun _ _ _ => Except.error DiError.Error) a history 0 =
           some r ∧
         r.orders = [] ∧ r.currency_balance = 1000 ∧
         r.symbol_balance = a.balance) :=
  ⟨by decide, by decide,
    lookback_gating (fun _ _ _ => Except.error DiError.Error) _ _ 0
      (by decide) (by decide)⟩

/-- C6 counterexample.  `backtest` clones the whole live agent and resets
only `capital`: an agent passed in with running balance 3 (and locked
capital 7) replays a one-sample no-trade history into a result whose
symbol balance is 3, not 0 — the replayed agent inherited the runtime
ledger. -/
theorem backtest_inherited_balance :
    backtest (fun _ _ _ => Except.error DiError.Error)
      { Chrysus.new Token.NoneT with
        capital := 50, locked_capital := 7, balance := 3 }
      [{ resolution := TimeUnit.default, timestamp := 0, open_ := 1,
         high := 1, low := 1, close := 1, volume := 1 }] 0 =
    some { initial_capital := 1000, orders := [],
           period := { resolution := TimeUnit.default, count := 1 },
           currency_balance := 1000, symbol_balance := 3 } := by
  decide

/-- C6 (amended).  The agent replayed by `backtest` begins with free
capital equal to the fixed starting capital 1000, but every other ledger
field — locked capital, running balance, the Position and Order
collections — is inherited from the agent passed in; with a no-trade
strategy (Delphi, no counselors) over a one-sample history the result
reports currency balance 1000 and the INPUT agent's running balance. -/
theorem backtest_resets_only_capital (runC : RunCounselor) (a : Chrysus)
    (dur : TimeWindow) (sample : Sample) (now : Date)
    (hstrat : a.strategy =
      { oracle := Oracle.Delphi, counselors := [], duration := dur }) :
    backtest runC a [sample] now =
      some { initial_capital := 1000, orders := [],
             period := { resolution := sample.resolution, count := 1 },
             currency_balance := 1000, symbol_balance := a.balance } ∧
    (backtestInitialAgent a).capital = 1000 ∧
    (backtestInitialAgent a).locked_capital = a.locked_capital ∧
    (backtestInitialAgent a).balance = a.balance ∧
    (backtestInitialAgent a).positions = a.positions ∧
    (backtestInitialAgent a).orders = a.orders := by
  refine ⟨?_, rfl, rfl, rfl, rfl, rfl⟩
  simp [backtest, backtestStep, backtestInitialAgent, hstrat,
    Strategy.required_history_size, Chrysus.decide, Book.quote, maxByPrice,
    minByPrice, BacktestData.get_last, Strategy.run, Oracle.see, delphiLoop,
    Chrysus.compute_orders, Decision.default, Advice.default]

/-- Witness for C6 at a fresh agent carrying balance 5 and capital 50. -/
theorem backtest_resets_only_capital_witness :
    (let a : Chrysus :=
      { Chrysus.new Token.NoneT with capital := 50, balance := 5 }
     let sample : Sample :=
       { resolution := TimeUnit.default, timestamp := 0, open_ := 1,
         high := 1, low := 1, close := 1, volume := 1 }
     a.strategy =
       { oracle := Oracle.Delphi, counselors := [],
         duration := { resolution := TimeUnit.default, count := 0 } } ∧
     (backtest (fun _ _ _ => Except.error DiError.Error) a [sample] 0 =
         some { initial_capital := 1000, orders := [],
                period := { resolution := sample.resolution, count := 1 },
                currency_balance := 1000, symbol_balance := a.balance } ∧
       (backtestInitialAgent a).capital = 1000 ∧
       (backtestInitialAgent a).locked_capital = a.locked_capital ∧
       (backtestInitialAgent a).balance = a.balance ∧
       (backtestInitialAgent a).positions = a.positions ∧
       (backtestInitialAgent a).orders = a.orders)) :=
  ⟨rfl, backtest_resets_only_capital
    (fun _ _ _ => Except.error DiError.Error) _ _ _ 0 rfl⟩

/-- A three-sample history with distinguishable timestamps, used as the
concrete input of the C10 counterexample. -/
def pastSliceSample (t : Nat) : Sample :=
  { resolution := TimeUnit.default, timestamp := t, open_ := 0, high := 0,
    low := 0, close := 1, volume := 0 }

/-- The concrete history of the C10 counterexample. -/
def pastSliceSamples : List Sample :=
  [pastSliceSample 0, pastSliceSample 1, pastSliceSample 2]

/-- A counselor run that signals Buy exactly when served all the samples
before the start offset 2. -/
def pastSliceRun : RunCounselor := fun _ _ h =>
  if h = pastSliceSamples.take 2 then
    Except.ok { signal := Signal.Buy, stop_price := 10 }
  else Except.ok Advice.default

/-- The concrete agent of the C10 counterexample: required lookback 2,
window count 1. -/
def pastSliceAgent : Chrysus :=
  { Chrysus.new Token.NoneT with
    capital := 1000
    strategy :=
      { oracle := Oracle.Delphi,
        counselors := [Counselor.MeanReversion 2],
        duration := { resolution := TimeUnit.default, count := 1 } } }

/-- C10 counterexample.  With required lookback (start offset) 2 but
window count 1, the first decide call of a backtest is served the slice
`samples[1..2)`, not all the samples before the offset: a counselor run
that would Buy exactly on seeing `samples.take 2` never fires, so the
backtest emits no orders. -/
theorem backtest_first_call_slice_counterexample :
    pastSliceAgent.strategy.required_history_size = 2 ∧
    BacktestData.get_last pastSliceSamples 2 Token.NoneT
        pastSliceAgent.strategy.duration =
      Except.ok [pastSliceSample 1] ∧
    ([pastSliceSample 1] : List Sample) ≠ pastSliceSamples.take 2 ∧
    pastSliceRun (Counselor.MeanReversion 2)
        { token := Token.NoneT, bid := none, ask := none, biddate := 0,
          askdate := 0 } (pastSliceSamples.take 2) =
      Except.ok { signal := Signal.Buy, stop_price := 10 } ∧
    (backtest pastSliceRun pastSliceAgent pastSliceSamples 0).map
        Backtest.orders =
      some [] := by
  refine ⟨rfl, rfl, by decide, ?_, ?_⟩
  · simp [pastSliceRun]
  · rfl

/-- C10 (amended).  At replay step `i` the history slice served to
`decide` is `samples[max(0, i - window.count) .. i)`: it equals
`(samples.take i).drop (i - count)`, hence is a suffix of `samples.take i`
(only samples strictly before index `i`), and it is exactly all the
samples before `i` precisely when `window.count ≥ i`. -/
theorem backtest_strictly_past_slice (samples : List Sample) (i : Nat)
    (tok : Token) (w : TimeWindow) (_hi : i ≤ samples.length) :
    BacktestData.get_last samples i tok w =
      Except.ok ((samples.take i).drop (i - i64AsUsize w.count)) ∧
    List.IsSuffix ((samples.take i).drop (i - i64AsUsize w.count))
      (samples.take i) ∧
    (i ≤ i64AsUsize w.count →
      (samples.take i).drop (i - i64AsUsize w.count) = samples.take i) := by
  refine ⟨?_, List.drop_suffix _ _, ?_⟩
  · unfold BacktestData.get_last
    rw [List.drop_take]
  · intro h
    rw [Nat.sub_eq_zero_of_le h, List.drop_zero]

/-- Witness for C10 (amended) on the concrete three-sample history at
replay step 2 with window count 1. -/
theorem backtest_strictly_past_slice_witness :
    2 ≤ pastSliceSamples.length ∧
    (BacktestData.get_last pastSliceSamples 2 Token.NoneT
        { resolution := TimeUnit.default, count := 1 } =
      Except.ok ((pastSliceSamples.take 2).drop
        (2 - i64AsUsize (1 : Int))) ∧
    List.IsSuffix ((pastSliceSamples.take 2).drop
        (2 - i64AsUsize (1 : Int))) (pastSliceSamples.take 2) ∧
    (2 ≤ i64AsUsize (1 : Int) →
      (pastSliceSamples.take 2).drop (2 - i64AsUsize (1 : Int)) =
        pastSliceSamples.take 2)) :=
  ⟨by decide,
    backtest_strictly_past_slice pastSliceSamples 2 Token.NoneT
      { resolution := TimeUnit.default, count := 1 } (by decide)⟩

/-- The Boolean test of C5: a counselor's run succeeded with a Buy or
Sell signal. -/
def signalWins (runC : RunCounselor) (quote : Quote)
    (history : List Sample) (c : Counselor) : Bool :=
  match runC c quote history with
  | Except.ok a =>
    match a.signal with
    | Signal.NoneS => false
    | _ => true
  | Except.error _ => false

/-- C5.  Delphi first-match-wins: `Oracle::see` with the Delphi policy
always returns `Ok`; its decision carries the Advice of the FIRST
counselor (in declared order) whose run succeeds with a non-None signal,
with allocation fraction 0.6 for Buy and 1.0 for Sell — in [0, 1] either
way; counselors whose run errors are skipped, never propagated; when no
counselor signals, the default no-trade decision (signal None, fraction 0)
is returned. -/
theorem delphi_first_match (runC : RunCounselor) (quote : Quote)
    (history : List Sample) (counselors : List Counselor) :
    ∃ d, Oracle.see Oracle.Delphi runC quote history counselors =
        Except.ok d ∧
      0 ≤ d.pct ∧ d.pct ≤ 1 ∧
      (match counselors.find? (signalWins runC quote history) with
       | some c => ∃ a, runC c quote history = Except.ok a ∧
           d.advice = a ∧
           ((a.signal = Signal.Buy ∧ d.pct = 6 / 10) ∨
             (a.signal = Signal.Sell ∧ d.pct = 1))
       | none => d = Decision.default ∧
           d.advice.signal = Signal.NoneS ∧ d.pct = 0) := by
  induction counselors with
  | nil =>
    refine ⟨Decision.default, rfl, by norm_num [Decision.default], ?_, ?_⟩
    · norm_num [Decision.default]
    · exact ⟨rfl, rfl, rfl⟩
  | cons c cs ih =>
    rcases h : runC c quote history with e | a
    · have hsee : Oracle.see Oracle.Delphi runC quote history (c :: cs) =
          Oracle.see Oracle.Delphi runC quote history cs := by
        simp [Oracle.see, delphiLoop, h]
      have hfind : (c :: cs).find? (signalWins runC quote history) =
          cs.find? (signalWins runC quote history) := by
        simp [List.find?, signalWins, h]
      rw [hsee, hfind]
      exact ih
    · cases hs : a.signal with
      | NoneS =>
        have hsee : Oracle.see Oracle.Delphi runC quote history (c :: cs) =
            Oracle.see Oracle.Delphi runC quote history cs := by
          simp [Oracle.see, delphiLoop, h, hs]
        have hfind : (c :: cs).find? (signalWins runC quote history) =
            cs.find? (signalWins runC quote history) := by
          simp [List.find?, signalWins, h, hs]
        rw [hsee, hfind]
        exact ih
      | Buy =>
        have hfind : (c :: cs).find? (signalWins runC quote history) =
            some c := by
          simp [List.find?, signalWins, h, hs]
        refine ⟨{ advice := a, pct := 6 / 10 }, ?_, by norm_num, by norm_num,
          ?_⟩
        · simp [Oracle.see, delphiLoop, h, hs]
        · rw [hfind]
          exact ⟨a, h, rfl, Or.inl ⟨hs, rfl⟩⟩
      | Sell =>
        have hfind : (c :: cs).find? (signalWins runC quote history) =
            some c := by
          simp [List.find?, signalWins, h, hs]
        refine ⟨{ advice := a, pct := 1 }, ?_, by norm_num, by norm_num, ?_⟩
        · simp [Oracle.see, delphiLoop, h, hs]
        · rw [hfind]
          exact ⟨a, h, rfl, Or.inr ⟨hs, rfl⟩⟩

/-- Every order emitted by the Sell loop closes a position of the input
list that had no attached order and entry price strictly below the
advice's stop price, with the position's quantity and side Sell. -/
lemma sellOrdersLoop_orders_spec (quote : Quote) (d : Decision)
    (now : Date) :
    ∀ (ps : List (Nat × Position)) (idx : Nat) (o : Order),
      o ∈ (sellOrdersLoop quote d now ps idx).2.1 →
      ∃ k p, o.position_index = some k ∧ (k, p) ∈ ps ∧
        p.attached_order = none ∧ d.advice.stop_price > p.price ∧
        o.quantity = p.quantity ∧ o.side = Side.Sell := by
  intro ps
  induction ps with
  | nil => intro idx o ho; simp [sellOrdersLoop] at ho
  | cons kp rest ih =>
    intro idx o ho
    by_cases hc : kp.2.attached_order = none ∧ d.advice.stop_price > kp.2.price
    · rw [show kp = (kp.1, kp.2) from rfl] at ho
      simp only [sellOrdersLoop, if_pos hc, List.mem_cons] at ho
      rcases ho with ho | ho
      · exact ⟨kp.1, kp.2, by rw [ho], List.mem_cons_self _ _, hc.1, hc.2,
          by rw [ho], by rw [ho]⟩
      · obtain ⟨k, p, h1, h2, h3, h4, h5, h6⟩ := ih (idx + 1) o ho
        exact ⟨k, p, h1, List.mem_cons_of_mem _ h2, h3, h4, h5, h6⟩
    · rw [show kp = (kp.1, kp.2) from rfl] at ho
      simp only [sellOrdersLoop, if_neg hc] at ho
      obtain ⟨k, p, h1, h2, h3, h4, h5, h6⟩ := ih idx o ho
      exact ⟨k, p, h1, List.mem_cons_of_mem _ h2, h3, h4, h5, h6⟩

/-- A position with an attached order passes through the Sell loop
unchanged. -/
lemma sellOrdersLoop_attached_kept (quote : Quote) (d : Decision)
    (now : Date) :
    ∀ (ps : List (Nat × Position)) (idx : Nat) (k : Nat) (p : Position),
      (k, p) ∈ ps → p.attached_order ≠ none →
      (k, p) ∈ (sellOrdersLoop quote d now ps idx).1 := by
  intro ps
  induction ps with
  | nil => intro idx k p hp; simp at hp
  | cons kp rest ih =>
    intro idx k p hp hatt
    rcases List.mem_cons.mp hp with heq | hmem
    · subst heq
      by_cases hc : p.attached_order = none ∧ d.advice.stop_price > p.price
      · exact absurd hc.1 hatt
      · simp only [sellOrdersLoop, if_neg hc]
        exact List.mem_cons_self _ _
    · by_cases hc : kp.2.attached_order = none ∧ d.advice.stop_price > kp.2.price
      · rw [show kp = (kp.1, kp.2) from rfl]
        simp only [sellOrdersLoop, if_pos hc]
        exact List.mem_cons_of_mem _ (ih (idx + 1) k p hmem hatt)
      · rw [show kp = (kp.1, kp.2) from rfl]
        simp only [sellOrdersLoop, if_neg hc]
        exact List.mem_cons_of_mem _ (ih idx k p hmem hatt)

/-- The emitted orders' position back-references form a sublist of the
input positions' keys (each position yields at most one order). -/
lemma sellOrdersLoop_indices_sublist (quote : Quote) (d : Decision)
    (now : Date) :
    ∀ (ps : List (Nat × Position)) (idx : Nat),
      List.Sublist ((sellOrdersLoop quote d now ps idx).2.1.map
        Order.position_index) (ps.map fun kp => some kp.1) := by
  intro ps
  induction ps with
  | nil => intro idx; simp [sellOrdersLoop]
  | cons kp rest ih =>
    intro idx
    by_cases hc : kp.2.attached_order = none ∧ d.advice.stop_price > kp.2.price
    · rw [show kp = (kp.1, kp.2) from rfl]
      simp only [sellOrdersLoop, if_pos hc, List.map_cons]
      exact List.Sublist.cons₂ _ (ih (idx + 1))
    · rw [show kp = (kp.1, kp.2) from rfl]
      simp only [sellOrdersLoop, if_neg hc, List.map_cons]
      exact List.Sublist.cons _ (ih idx)

/-- In an association list with distinct keys, a key determines its
value. -/
lemma assoc_key_unique {α : Type} :
    ∀ {ps : List (Nat × α)}, (ps.map Prod.fst).Nodup →
      ∀ {k : Nat} {p q : α}, (k, p) ∈ ps → (k, q) ∈ ps → p = q := by
  intro ps
  induction ps with
  | nil => intro _ k p q hp; simp at hp
  | cons kp rest ih =>
    intro hnd k p q hp hq
    have hnotin : kp.1 ∉ rest.map Prod.fst := (List.nodup_cons.mp hnd).1
    have hndr : (rest.map Prod.fst).Nodup := (List.nodup_cons.mp hnd).2
    rcases List.mem_cons.mp hp with hp1 | hp1 <;>
      rcases List.mem_cons.mp hq with hq1 | hq1
    · have hpq : (k, q) = (k, p) := by rw [hq1, ← hp1]
      exact ((Prod.ext_iff.mp hpq).2).symm
    · exfalso
      apply hnotin
      rw [← hp1]
      exact List.mem_map.mpr ⟨(k, q), hq1, rfl⟩
    · exfalso
      apply hnotin
      rw [← hq1]
      exact List.mem_map.mpr ⟨(k, p), hp1, rfl⟩
    · exact ih hndr hp1 hq1

/-- C4.  Single attached order: on any Sell decision (for any agent state
whose position keys are distinct, as a `HashMap`'s are), a position whose
`attached_order` is set receives no closing order from `compute_orders`
and survives unchanged; every emitted order closes a position that had no
attached order and entry price strictly below the advice's stop price,
carrying that position's quantity; and no two emitted orders reference the
same position. -/
theorem single_attached_order (s : Chrysus) (quote : Quote) (d : Decision)
    (now : Date) (hsig : d.advice.signal = Signal.Sell)
    (hnd : (s.positions.map Prod.fst).Nodup) :
    (∀ k p, (k, p) ∈ s.positions → p.attached_order ≠ none →
      ((k, p) ∈ (s.compute_orders quote d now).2.positions ∧
        ∀ o ∈ (s.compute_orders quote d now).1,
          o.position_index ≠ some k)) ∧
    (∀ o ∈ (s.compute_orders quote d now).1, ∃ k p,
      o.position_index = some k ∧ (k, p) ∈ s.positions ∧
      p.attached_order = none ∧ d.advice.stop_price > p.price ∧
      o.quantity = p.quantity ∧ o.side = Side.Sell) ∧
    ((s.compute_orders quote d now).1.map Order.position_index).Nodup := by
  have hunfold1 : (s.compute_orders quote d now).1 =
      (sellOrdersLoop quote d now s.positions s.next_order_index).2.1 := by
    simp [Chrysus.compute_orders, hsig]
  have hunfold2 : (s.compute_orders quote d now).2.positions =
      (sellOrdersLoop quote d now s.positions s.next_order_index).1 := by
    simp [Chrysus.compute_orders, hsig]
  refine ⟨?_, ?_, ?_⟩
  · intro k p hp hatt
    constructor
    · rw [hunfold2]
      exact sellOrdersLoop_attached_kept quote d now _ _ k p hp hatt
    · intro o ho hcontra
      rw [hunfold1] at ho
      obtain ⟨k', p', h1, h2, h3, _, _, _⟩ :=
        sellOrdersLoop_orders_spec quote d now _ _ o ho
      have hk : k = k' := Option.some.inj (hcontra.symm.trans h1)
      rw [← hk] at h2
      have hpp : p = p' := assoc_key_unique hnd hp h2
      rw [← hpp] at h3
      exact hatt h3
  · intro o ho
    rw [hunfold1] at ho
    exact sellOrdersLoop_orders_spec quote d now _ _ o ho
  · rw [hunfold1]
    have hkeys : (s.positions.map fun kp => some kp.1).Nodup := by
      have := hnd.map (f := some) (Option.some_injective Nat)
      simpa [List.map_map, Function.comp] using this
    exact (sellOrdersLoop_indices_sublist quote d now _ _).nodup hkeys

/-- Witness for C4 at a two-position agent, one attached and one free. -/
theorem single_attached_order_witness :
    (let s : Chrysus :=
      { Chrysus.new Token.NoneT with
        positions :=
          [(0, { token := Token.NoneT, quantity := 2, price := 3, date := 0,
                 attached_order := some 5 }),
           (1, { token := Token.NoneT, quantity := 4, price := 5, date := 0,
                 attached_order := none })]
        next_order_index := 6 }
     let quote : Quote :=
       { token := Token.NoneT, bid := none, ask := none, biddate := 0,
         askdate := 0 }
     let d : Decision :=
       { advice := { signal := Signal.Sell, stop_price := 10 }, pct := 1 }
     d.advice.signal = Signal.Sell ∧ (s.positions.map Prod.fst).Nodup ∧
       ((∀ k p, (k, p) ∈ s.positions → p.attached_order ≠ none →
          ((k, p) ∈ (s.compute_orders quote d 0).2.positions ∧
            ∀ o ∈ (s.compute_orders quote d 0).1,
              o.position_index ≠ some k)) ∧
        (∀ o ∈ (s.compute_orders quote d 0).1, ∃ k p,
          o.position_index = some k ∧ (k, p) ∈ s.positions ∧
          p.attached_order = none ∧ d.advice.stop_price > p.price ∧
          o.quantity = p.quantity ∧ o.side = Side.Sell) ∧
        ((s.compute_orders quote d 0).1.map Order.position_index).Nodup)) :=
  ⟨rfl, by decide, single_attached_order _ _ _ 0 rfl (by decide)⟩

end Midas
